import Mathlib

/-!
Verification of the tiny-crawler spider against its specification.

The Rust sources `src/spider/{utils,crawler,network,config,error}.rs` are
shallowly embedded below.  External effects are abstracted into an `Env`
oracle:

* `Env.parseUrl` models `url::Url::parse` (`none` = parse failure); a
  successful parse exposes the optional host (`host_str()`) and the
  re-serialized form (`to_string()`).
* `Env.resolveUrl` models `Url::join` (`none` = join failure).
* `Env.fetchRes` models the network outcome of `NetworkClient::fetch`
  followed by `extract_html`: `none` = transport failure or non-success
  HTTP status; `some r` carries the final (post-redirect) URL, whether the
  content type was HTML and the body decoded, and the `href` attributes of
  the anchor elements of the parsed document.
* `Env.saveOk` models whether `Spider::save_result`'s file creation and
  JSON serialization succeed.

Concurrency: within one batch every critical section of the Rust code is a
single read-check-insert or append under a `Mutex`, and the loop joins the
whole batch before the next iteration, so batch processing is modelled as a
sequential fold over the batch (a linearization of the atomic sections).
The field `CrawlState.fetchLog` is ghost instrumentation recording each
invocation of `network.fetch`, used to state the at-most-once-fetch
invariant.

The regex `(.*?)(\d+)(.*)` of `detect_massive_links_pattern` is modelled
with `\d` as the ASCII digits and `.` as any character other than a
newline, matching the regex crate's leftmost-first match of that pattern.
-/

/-- Chars-level check that `needle` is an initial segment of `hay`
(models `str::starts_with` for the substring scan). -/
def charsStart : List Char → List Char → Bool
  | [], _ => true
  | _ :: _, [] => false
  | a :: as, b :: bs => a == b && charsStart as bs

/-- Chars-level substring occurrence check. -/
def charsHas (needle : List Char) : List Char → Bool
  | [] => needle.isEmpty
  | c :: t => charsStart needle (c :: t) || charsHas needle t

/-- Models Rust `str::contains(pattern)`: `pat` occurs as a contiguous
substring of `hay`. -/
def str_contains (hay pat : String) : Bool :=
  charsHas pat.toList hay.toList

/-- Models Rust `str::starts_with(pat)`. -/
def strStarts (s pat : String) : Bool :=
  charsStart pat.toList s.toList

/-- Models Rust `str::ends_with(pat)`. -/
def strEnds (s pat : String) : Bool :=
  charsStart pat.toList.reverse s.toList.reverse

/-- Lexicographic character-list order (UTF-8 byte order of Rust `String`
comparison agrees with code-point order). -/
def charsLe : List Char → List Char → Bool
  | [], _ => true
  | _ :: _, [] => false
  | a :: as, b :: bs => if a == b then charsLe as bs else decide (a < b)

/-- Models Rust `String` `Ord` (used by `urls.sort()`). -/
def strLe (a b : String) : Bool :=
  charsLe a.toList b.toList

/-- Splitting a character list at every `*` (models `str::split('*')`). -/
def splitStarChars : List Char → List (List Char)
  | [] => [[]]
  | c :: t =>
    if c == '*' then [] :: splitStarChars t
    else
      match splitStarChars t with
      | [] => [[c]]
      | h :: r => (c :: h) :: r

/-- Models `pattern.split('*').collect::<Vec<&str>>()`. -/
def splitStar (s : String) : List String :=
  (splitStarChars s.toList).map String.mk

/-- `host.strip_prefix("www.")` as used throughout `utils.rs`. -/
def stripWww (h : String) : String :=
  if strStarts h "www." then h.drop 4 else h

/-- `should_skip_url` from `utils.rs`: any pattern is a literal substring. -/
def should_skip_url (url : String) (skip_patterns : List String) : Bool :=
  skip_patterns.any (fun pat => str_contains url pat)

/-- `is_priority_url` from `utils.rs`: any priority path is a substring. -/
def is_priority_url (url : String) (priority_paths : List String) : Bool :=
  priority_paths.any (fun pat => str_contains url pat)

/-- Split a character list at its first run of ASCII digits:
characters before the first digit, the maximal digit run, the rest.
`none` when the list has no digit. -/
def firstDigitSplit : List Char → Option (List Char × List Char × List Char)
  | [] => none
  | c :: cs =>
    if c.isDigit then
      some ([], c :: cs.takeWhile Char.isDigit, cs.dropWhile Char.isDigit)
    else
      match firstDigitSplit cs with
      | none => none
      | some (p, d, suf) => some (c :: p, d, suf)

/-- Characters of `l` up to (excluding) the first newline: the reach of a
greedy `.*` group. -/
def takeToNewline (l : List Char) : List Char :=
  l.takeWhile (fun c => c != '\n')

/-- The suffix of `l` after its last newline: where a match whose `.` groups
cannot cross newlines must begin. -/
def afterLastNewline (l : List Char) : List Char :=
  (takeToNewline l.reverse).reverse

/-- Leftmost-first match of `(.*?)(\d+)(.*)` on `s`: lazy group 1, the first
digit run as greedy group 2, greedy group 3; `.` does not match newlines. -/
def regexSplit (s : List Char) : Option (List Char × List Char × List Char) :=
  match firstDigitSplit s with
  | none => none
  | some (pre, digs, post) => some (afterLastNewline pre, digs, takeToNewline post)

/-- The counter key `format!("{}*{}", prefix, suffix)` derived from a URL by
`detect_massive_links_pattern`, or `none` when the regex does not match. -/
def patternKey (url : String) : Option String :=
  match regexSplit url.toList with
  | none => none
  | some x => some (String.mk x.1 ++ "*" ++ String.mk x.2.2)

/-- `*patterns.entry(pattern).or_insert(0) += 1` on an association-list model
of the `HashMap<String, usize>` counter. -/
def bumpKey : List (String × Nat) → String → List (String × Nat)
  | [], k => [(k, 1)]
  | (k', n) :: rest, k =>
    if k' == k then (k', n + 1) :: rest else (k', n) :: bumpKey rest k

/-- One iteration of the `for url in urls` loop of
`detect_massive_links_pattern`: bump the counter when the regex matches. -/
def countStep (m : List (String × Nat)) (u : String) : List (String × Nat) :=
  match patternKey u with
  | some k => bumpKey m k
  | none => m

/-- The counter built by the `for url in urls` loop of
`detect_massive_links_pattern`. -/
def buildCounts (urls : List String) : List (String × Nat) :=
  urls.foldl countStep []

/-- One comparison step of `Iterator::max_by_key` (keeps the later element
on ties, as `max_by` does). -/
def maxStep (acc : Option (String × Nat)) (kv : String × Nat) : Option (String × Nat) :=
  match acc with
  | none => some kv
  | some kv0 => if kv0.2 ≤ kv.2 then some kv else some kv0

/-- `Iterator::max_by_key(|(_, count)| *count)` over the counter entries. -/
def maxByCount (l : List (String × Nat)) : Option (String × Nat) :=
  l.foldl maxStep none

/-- `detect_massive_links_pattern` from `utils.rs`. -/
def detect_massive_links_pattern (urls : List String) (threshold : Nat) : Option String :=
  if urls.length < threshold then none
  else
    match maxByCount ((buildCounts urls).filter (fun kv => threshold ≤ kv.2)) with
    | none => none
    | some kv => some kv.1

/-- The number of input URLs whose regex-derived counter key is `p`
(specification-side count used to state C4). -/
def patternCount (urls : List String) (p : String) : Nat :=
  (urls.filter (fun u => patternKey u == some p)).length

/-- Result of `Url::parse` in the oracle: the optional host (`host_str()`)
and the re-serialized URL (`to_string()`). -/
structure ParsedUrl where
  host : Option String
  serialized : String

/-- Successful outcome of `fetch` + `extract_html`: the response's final
URL, whether the body was HTML (content-type gate and text decoding), and
the `href` attributes of the anchor elements of the document. -/
structure FetchResp where
  finalUrl : String
  htmlOk : Bool
  hrefs : List String

/-- Oracle for the external effects of one crawl (see the header comment). -/
structure Env where
  parseUrl : String → Option ParsedUrl
  resolveUrl : String → String → Option String
  fetchRes : String → Option FetchResp
  saveOk : Bool

/-- `SpiderError` from `error.rs` (string payloads dropped; kinds kept). -/
inductive SpiderError where
  | urlParse
  | ioErr
  | jsonErr
  | invalidUrl
  | networkErr
  | httpStatus
  | contentType
  | htmlParse
  | httpClient
deriving DecidableEq, Repr

/-- `SpiderConfig` from `config.rs` (delays in milliseconds). -/
structure SpiderConfig where
  max_depth : Nat
  max_loops : Nat
  max_concurrent : Nat
  pattern_threshold : Nat
  skip_patterns : List String
  skip_subdomain_patterns : List String
  priority_paths : List String
  min_request_delay_ms : Nat
  max_request_delay_ms : Nat
  user_agents : List String

/-- `extract_base_domain` from `utils.rs`. -/
def extract_base_domain (env : Env) (url : String) : Except SpiderError String :=
  match env.parseUrl url with
  | none => .error .urlParse
  | some p =>
    match p.host with
    | none => .error .invalidUrl
    | some h => .ok (stripWww h)

/-- `normalize_url` from `utils.rs`: parse and re-serialize. -/
def normalize_url (env : Env) (url : String) : Except SpiderError String :=
  match env.parseUrl url with
  | none => .error .urlParse
  | some p => .ok p.serialized

/-- `resolve_url` from `utils.rs`: base-relative resolution. -/
def resolve_url (env : Env) (base rel : String) : Except SpiderError String :=
  match env.resolveUrl base rel with
  | none => .error .urlParse
  | some u => .ok u

/-- `is_same_domain` from `utils.rs`. -/
def is_same_domain (env : Env) (url base_domain : String) : Except SpiderError Bool :=
  match env.parseUrl url with
  | none => .error .urlParse
  | some p =>
    match p.host with
    | none => .error .invalidUrl
    | some h =>
      let nh := stripWww h
      .ok (nh == base_domain || strEnds nh ("." ++ base_domain))

/-- `should_skip_subdomain` from `utils.rs`. -/
def should_skip_subdomain (env : Env) (url : String) (pats : List String) :
    Except SpiderError Bool :=
  match env.parseUrl url with
  | none => .error .urlParse
  | some p =>
    match p.host with
    | none => .error .invalidUrl
    | some h => .ok (pats.any (fun pat => strStarts (stripWww h) pat))

/-- `UrlEntry` from `crawler.rs`. -/
structure UrlEntry where
  url : String
  depth : Nat
  priority : Nat
deriving DecidableEq, Repr

/-- `CrawlResult` from `crawler.rs`; the two `HashMap`s and the pattern
`HashSet` are modelled as association lists / lists. -/
structure CrawlResult where
  base_url : String
  base_domain : String
  urls : List String
  skipped_urls : List (String × List String)
  massive_link_patterns : List String
  redirects : List (String × String)
  unreachable_urls : List String
  remaining_queue : List String
  stats : List (String × Nat)

/-- The shared mutable state of one crawl.  `fetchLog` is ghost
instrumentation recording each invocation of `network.fetch`. -/
structure CrawlState where
  visited : List String
  queue : List UrlEntry
  found : List String
  skipped : List (String × List String)
  patterns : List String
  redirects : List (String × String)
  unreachable : List String
  fetchLog : List String

/-- `skipped.entry(reason).or_default().push(url)`. -/
def addSkip : List (String × List String) → String → String → List (String × List String)
  | [], reason, url => [(reason, [url])]
  | (r, us) :: rest, reason, url =>
    if r == reason then (r, us ++ [url]) :: rest
    else (r, us) :: addSkip rest reason url

/-- `HashMap::insert` on the association-list model of the redirect map. -/
def insertAssoc : List (String × String) → String → String → List (String × String)
  | [], k, v => [(k, v)]
  | (k', v') :: rest, k, v =>
    if k' == k then (k, v) :: rest else (k', v') :: insertAssoc rest k v

/-- `HashSet::insert` on the list model of the trap-pattern set. -/
def insertSet (l : List String) (x : String) : List String :=
  if l.contains x then l else l ++ [x]

/-- The `UrlEntry` pushed for a discovered link in `process_url`:
`depth + 1`, priority 50 on a priority-path match, else 10. -/
def linkEntry (url : String) (parentDepth : Nat) (priority_paths : List String) : UrlEntry :=
  { url := url, depth := parentDepth + 1,
    priority := if is_priority_url url priority_paths then 50 else 10 }

/-- One iteration of the `for element in document.select(..)` loop of
`process_url`: filter trivial hrefs, resolve, require same domain (failures
skip the link), suppress already-visited or already-queued URLs, else
enqueue. -/
def processHref (env : Env) (base_domain currentUrl : String) (depth : Nat)
    (priority_paths : List String) (s : CrawlState) (href : String) : CrawlState :=
  if href.isEmpty || strStarts href "#" || strStarts href "javascript:"
      || strStarts href "mailto:" then s
  else
    match resolve_url env currentUrl href with
    | .error _ => s
    | .ok absoluteUrl =>
      match is_same_domain env absoluteUrl base_domain with
      | .error _ => s
      | .ok false => s
      | .ok true =>
        if s.visited.contains absoluteUrl then s
        else if s.queue.any (fun e => e.url == absoluteUrl) then s
        else { s with queue := s.queue ++ [linkEntry absoluteUrl depth priority_paths] }

/-- `Spider::process_url` from `crawler.rs`: atomic visited check-and-set,
found append, fetch, unreachable on failure, redirect capture, content-type
gate, link extraction. -/
def processUrl (env : Env) (base_domain : String) (priority_paths : List String)
    (url : String) (depth : Nat) (s : CrawlState) : CrawlState :=
  if s.visited.contains url then s
  else
    let s1 := { s with visited := s.visited ++ [url], found := s.found ++ [url] }
    match env.fetchRes url with
    | none =>
      { s1 with fetchLog := s1.fetchLog ++ [url],
                unreachable := s1.unreachable ++ [url] }
    | some resp =>
      let s2 := { s1 with fetchLog := s1.fetchLog ++ [url] }
      let s3 :=
        if resp.finalUrl != url then
          { s2 with redirects := insertAssoc s2.redirects url resp.finalUrl }
        else s2
      if !resp.htmlOk then s3
      else resp.hrefs.foldl (processHref env base_domain resp.finalUrl depth priority_paths) s3

/-- Matching an entry URL against one accumulated trap pattern:
split on `*`; exactly two parts required; prefix and suffix literal match. -/
def matchesMassivePattern (patterns : List String) (url : String) : Bool :=
  patterns.any (fun pat =>
    match splitStar pat with
    | [p1, p2] => strStarts url p1 && strEnds url p2
    | _ => false)

/-- The pre-dispatch filter chain of the batch closure in `Spider::crawl`,
in source order; `none` means the entry is dispatched.  A
`should_skip_subdomain` error falls through to dispatch (fail open). -/
def preDispatchReason (env : Env) (cfg : SpiderConfig) (patterns : List String)
    (e : UrlEntry) : Option String :=
  if cfg.max_depth ≤ e.depth then some "max_depth_exceeded"
  else if matchesMassivePattern patterns e.url then some "massive_link_pattern"
  else if should_skip_url e.url cfg.skip_patterns then some "skip_pattern"
  else
    match should_skip_subdomain env e.url cfg.skip_subdomain_patterns with
    | .ok true => some "subdomain_pattern"
    | .ok false => none
    | .error _ => none

/-- Processing of one batch entry: filter, then record the skip or run
`process_url`. -/
def processEntry (env : Env) (cfg : SpiderConfig) (base_domain : String)
    (s : CrawlState) (e : UrlEntry) : CrawlState :=
  match preDispatchReason env cfg s.patterns e with
  | some reason => { s with skipped := addSkip s.skipped reason e.url }
  | none => processUrl env base_domain cfg.priority_paths e.url e.depth s

/-- Comparator of `entries.sort_by(|a, b| b.priority.cmp(&a.priority))`:
`a` may precede `b` iff `a`'s priority is at least `b`'s (descending). -/
def entryRel (a b : UrlEntry) : Prop :=
  b.priority ≤ a.priority

instance : DecidableRel entryRel := fun a b => Nat.decLe b.priority a.priority

/-- Batch selection in `Spider::crawl`: drain the queue, stable-sort by
priority descending (a stable sort, so it computes the same list as the
source's stable `sort_by`), take the first `min(max_concurrent, len)`
entries, put the rest back. -/
def selectBatch (queue : List UrlEntry) (max_concurrent : Nat) :
    List UrlEntry × List UrlEntry :=
  let sorted := queue.insertionSort entryRel
  let k := min max_concurrent sorted.length
  (sorted.take k, sorted.drop k)

/-- One iteration body of the crawl loop (queue known non-empty): batch
selection, trap detection over the batch, then the batch fold. -/
def crawlStep (env : Env) (cfg : SpiderConfig) (base_domain : String)
    (s : CrawlState) : CrawlState :=
  let sel := selectBatch s.queue cfg.max_concurrent
  let s1 := { s with queue := sel.2 }
  let s2 :=
    match detect_massive_links_pattern (sel.1.map (fun e => e.url)) cfg.pattern_threshold with
    | some pat => { s1 with patterns := insertSet s1.patterns pat }
    | none => s1
  sel.1.foldl (processEntry env cfg base_domain) s2

/-- The `while loop_count < max_loops` loop of `Spider::crawl`, by fuel on
the remaining iterations; returns state, `loop_count`, and
`processed_urls_count`.  The counter is incremented before the empty-queue
break, as in the source. -/
def crawlLoop (env : Env) (cfg : SpiderConfig) (base_domain : String) :
    Nat → CrawlState → Nat → Nat → CrawlState × Nat × Nat
  | 0, s, loops, processed => (s, loops, processed)
  | fuel + 1, s, loops, processed =>
    if s.queue.isEmpty then (s, loops + 1, processed)
    else
      crawlLoop env cfg base_domain fuel (crawlStep env cfg base_domain s)
        (loops + 1) (processed + min cfg.max_concurrent s.queue.length)

/-- Crawl state before the loop: the normalized start URL at depth 0 with
priority 100. -/
def initState (normUrl : String) : CrawlState :=
  { visited := [], queue := [{ url := normUrl, depth := 0, priority := 100 }],
    found := [], skipped := [], patterns := [], redirects := [],
    unreachable := [], fetchLog := [] }

/-- The whole bounded loop of one crawl, from the initial state. -/
def runCrawl (env : Env) (cfg : SpiderConfig) (base_domain normUrl : String) :
    CrawlState × Nat × Nat :=
  crawlLoop env cfg base_domain cfg.max_loops (initState normUrl) 0 0

/-- `Vec::dedup` (remove consecutive duplicates), applied after `sort`. -/
def dedupConsec : List String → List String
  | [] => []
  | [a] => [a]
  | a :: b :: t =>
    if a == b then dedupConsec (b :: t) else a :: dedupConsec (b :: t)

/-- `urls.sort()` on the found list (lexicographic `String` order). -/
def sortStrings (l : List String) : List String :=
  l.insertionSort (fun a b => strLe a b = true)

/-- Assembly of `CrawlResult` plus its stats map at the end of
`Spider::crawl`. -/
def mkResult (normUrl base_domain : String) (s : CrawlState)
    (loops processed : Nat) : CrawlResult :=
  let urls := dedupConsec (sortStrings s.found)
  { base_url := normUrl
    base_domain := base_domain
    urls := urls
    skipped_urls := s.skipped
    massive_link_patterns := s.patterns
    redirects := s.redirects
    unreachable_urls := s.unreachable
    remaining_queue := s.queue.map (fun e => e.url)
    stats :=
      [("loops", loops), ("processed_urls", processed),
       ("visited_urls", s.visited.length), ("found_urls", urls.length),
       ("skipped_urls", (s.skipped.map (fun kv => kv.2.length)).sum),
       ("redirects", s.redirects.length),
       ("unreachable_urls", s.unreachable.length),
       ("patterns_detected", s.patterns.length)] }

/-- `Spider::crawl`: seed validation, the loop, result assembly, and
`save_result` (whose failure is the final `?`). -/
def crawl (env : Env) (cfg : SpiderConfig) (start_url : String) :
    Except SpiderError CrawlResult :=
  match extract_base_domain env start_url with
  | .error e => .error e
  | .ok base_domain =>
    match normalize_url env start_url with
    | .error e => .error e
    | .ok normUrl =>
      let r := runCrawl env cfg base_domain normUrl
      let result := mkResult normUrl base_domain r.1 r.2.1 r.2.2
      if env.saveOk then .ok result else .error .ioErr

/-- Outcome of one call to `NetworkClient::fetch` including the panic
behaviour of the two `gen_range` calls. -/
inductive FetchStatus where
  | panicked
  | failed (e : SpiderError)
  | fetched
deriving DecidableEq, Repr

/-- `NetworkClient::fetch` up to the point the request is answered:
URL parse check, then `apply_delay` (`gen_range(min..=max)` panics when
`max < min`), then `get_random_user_agent` (`gen_range(0..len)` panics when
the list is empty), then the network outcome. -/
def fetchOutcome (env : Env) (cfg : SpiderConfig) (url : String) : FetchStatus :=
  match env.parseUrl url with
  | none => .failed .urlParse
  | some _ =>
    if cfg.max_request_delay_ms < cfg.min_request_delay_ms then .panicked
    else if cfg.user_agents.isEmpty then .panicked
    else
      match env.fetchRes url with
      | none => .failed .networkErr
      | some _ => .fetched

/-- First-match lookup in the association-list counter, 0 when absent
(specification-side view of the `HashMap` counter). -/
def countIn : List (String × Nat) → String → Nat
  | [], _ => 0
  | (k', n) :: rest, k => if k' == k then n else countIn rest k

/-- The association list has pairwise distinct keys (the `HashMap`
representation invariant). -/
def keysNodup (m : List (String × Nat)) : Prop :=
  (m.map Prod.fst).Nodup

/-- The crawl-state invariant maintained by every atomic section of
`Spider::crawl` / `process_url`:
the found list is exactly the visited ledger, the ledger and fetch log are
duplicate-free, every fetched URL is in the ledger, every unreachable URL
was appended to the found list first, and every queued entry carries the
seed priority 100 or a link priority 50 / 10. -/
def CrawlInv (s : CrawlState) : Prop :=
  s.found = s.visited ∧
  s.visited.Nodup ∧
  (∀ u, u ∈ s.fetchLog → u ∈ s.visited) ∧
  s.fetchLog.Nodup ∧
  (∀ u, u ∈ s.unreachable → u ∈ s.found) ∧
  (∀ e, e ∈ s.queue → e.priority = 100 ∨ e.priority = 50 ∨ e.priority = 10)

/-- Default value used to destructure a known-successful crawl result. -/
def emptyResult : CrawlResult :=
  { base_url := "", base_domain := "", urls := [], skipped_urls := [],
    massive_link_patterns := [], redirects := [], unreachable_urls := [],
    remaining_queue := [], stats := [] }

/-- Oracle of a site whose only URL `https://a.com/` parses but is
unreachable (every fetch fails); persistence succeeds. -/
def envA : Env :=
  { parseUrl := fun u =>
      if u == "https://a.com/" then some { host := some "a.com", serialized := "https://a.com/" }
      else none
    resolveUrl := fun _ _ => none
    fetchRes := fun _ => none
    saveOk := true }

/-- A small well-formed configuration. -/
def cfgA : SpiderConfig :=
  { max_depth := 2, max_loops := 5, max_concurrent := 10, pattern_threshold := 500,
    skip_patterns := [], skip_subdomain_patterns := [], priority_paths := [],
    min_request_delay_ms := 0, max_request_delay_ms := 0, user_agents := ["ua"] }

/-- Oracle where no URL parses (the seed is malformed); persistence would
succeed. -/
def envB : Env :=
  { parseUrl := fun _ => none, resolveUrl := fun _ _ => none,
    fetchRes := fun _ => none, saveOk := true }

/-- `cfgA` with the user-agent list emptied (violates the fetch
panic-freedom precondition). -/
def cfgBad : SpiderConfig :=
  { cfgA with user_agents := [] }

/-- The crawl of `https://a.com/` under `envA` / `cfgA`. -/
def crawlA : Except SpiderError CrawlResult :=
  crawl envA cfgA "https://a.com/"

/-- A tiny concrete frontier queue. -/
def qW : List UrlEntry :=
  [{ url := "https://a.com/x", depth := 0, priority := 10 },
   { url := "https://a.com/y", depth := 1, priority := 50 }]

/-- A concrete state with an empty frontier queue. -/
def sEmptyQ : CrawlState :=
  { initState "https://a.com/" with queue := [] }

/-- A predicate preserved by every fold step is preserved by the fold. -/
theorem foldl_preserve {α β : Type} {P : β → Prop} (f : β → α → β)
    (h : ∀ b a, P b → P (f b a)) : ∀ (l : List α) (b : β), P b → P (l.foldl f b)
  | [], _, hb => hb
  | a :: t, b, hb => foldl_preserve f h t (f b a) (h b a hb)

/-- Bumping a key increments its count. -/
theorem countIn_bumpKey_self : ∀ (m : List (String × Nat)) (k : String),
    countIn (bumpKey m k) k = countIn m k + 1
  | [], k => by simp [bumpKey, countIn]
  | (a, n) :: rest, k => by
    by_cases h : a = k
    · subst h; simp [bumpKey, countIn]
    · have hb : (a == k) = false := beq_eq_false_iff_ne.mpr h
      simp [bumpKey, countIn, hb, countIn_bumpKey_self rest k]

/-- Bumping a key leaves other counts unchanged. -/
theorem countIn_bumpKey_other : ∀ (m : List (String × Nat)) (k k' : String),
    k' ≠ k → countIn (bumpKey m k) k' = countIn m k'
  | [], k, k', h => by
    have hb : (k == k') = false := beq_eq_false_iff_ne.mpr (Ne.symm h)
    simp [bumpKey, countIn, hb]
  | (a, n) :: rest, k, k', h => by
    by_cases ha : a = k
    · subst ha
      have hb : (a == k') = false := by
        exact beq_eq_false_iff_ne.mpr (fun hak => h (hak.symm))
      simp [bumpKey, countIn, hb]
    · have hb : (a == k) = false := beq_eq_false_iff_ne.mpr ha
      by_cases ha' : a = k'
      · subst ha'; simp [bumpKey, countIn, hb]
      · have hb' : (a == k') = false := beq_eq_false_iff_ne.mpr ha'
        simp [bumpKey, countIn, hb, hb', countIn_bumpKey_other rest k k' h]

/-- Keys of the bumped counter. -/
theorem mem_keys_bumpKey : ∀ (m : List (String × Nat)) (k a : String),
    a ∈ (bumpKey m k).map Prod.fst ↔ a ∈ m.map Prod.fst ∨ a = k
  | [], k, a => by simp [bumpKey, eq_comm]
  | (b, n) :: rest, k, a => by
    by_cases hb : b = k
    · subst hb; simp [bumpKey, or_assoc, or_comm, or_left_comm]
    · have hbb : (b == k) = false := beq_eq_false_iff_ne.mpr hb
      simp [bumpKey, hbb, mem_keys_bumpKey rest k a, or_assoc]

/-- Bumping preserves key distinctness. -/
theorem keysNodup_bumpKey : ∀ (m : List (String × Nat)) (k : String),
    keysNodup m → keysNodup (bumpKey m k)
  | [], k, _ => by simp [bumpKey, keysNodup]
  | (b, n) :: rest, k, h => by
    have h' : keysNodup rest ∧ b ∉ rest.map Prod.fst := by
      constructor
      · exact (List.nodup_cons.mp h).2
      · exact (List.nodup_cons.mp h).1
    by_cases hb : b = k
    · subst hb
      have hbb : (b == b) = true := beq_self_eq_true b
      simpa [bumpKey, hbb, keysNodup] using h
    · have hbb : (b == k) = false := beq_eq_false_iff_ne.mpr hb
      have hrest := keysNodup_bumpKey rest k h'.1
      have hnot : b ∉ (bumpKey rest k).map Prod.fst := by
        rw [mem_keys_bumpKey]
        rintro (hm | rfl)
        · exact h'.2 hm
        · exact hb rfl
      simp only [keysNodup, bumpKey, hbb]
      exact List.nodup_cons.mpr ⟨hnot, hrest⟩

/-- With distinct keys, a member's count is its stored value. -/
theorem countIn_eq_of_mem : ∀ (m : List (String × Nat)) (k : String) (n : Nat),
    keysNodup m → (k, n) ∈ m → countIn m k = n
  | [], k, n, _, hm => by cases hm
  | (a, b) :: rest, k, n, hnd, hm => by
    rcases List.mem_cons.mp hm with heq | htail
    · cases heq
      simp [countIn]
    · have hk : k ∈ rest.map Prod.fst := by
        exact List.mem_map.mpr ⟨(k, n), htail, rfl⟩
      have ha : a ≠ k := by
        rintro rfl
        exact (List.nodup_cons.mp hnd).1 hk
      have hb : (a == k) = false := beq_eq_false_iff_ne.mpr ha
      simp [countIn, hb,
        countIn_eq_of_mem rest k n (List.nodup_cons.mp hnd).2 htail]

/-- A key with positive count is a member with that count. -/
theorem mem_of_countIn_pos : ∀ (m : List (String × Nat)) (k : String),
    0 < countIn m k → (k, countIn m k) ∈ m
  | [], k, h => by simp [countIn] at h
  | (a, b) :: rest, k, h => by
    by_cases ha : a = k
    · subst ha
      simp_all [countIn]
    · have hb : (a == k) = false := beq_eq_false_iff_ne.mpr ha
      simp only [countIn, hb, if_neg] at h ⊢
      simp only [Bool.false_eq_true, if_false] at h ⊢
      exact List.mem_cons_of_mem _ (mem_of_countIn_pos rest k h)

/-- Unfolding the per-URL contribution to the specification count. -/
theorem patternCount_cons (u : String) (t : List String) (p : String) :
    patternCount (u :: t) p =
      (if patternKey u == some p then 1 else 0) + patternCount t p := by
  by_cases h : (patternKey u == some p) = true
  · simp [patternCount, List.filter_cons, h, Nat.add_comm]
  · have h' : (patternKey u == some p) = false := by
      cases hb : (patternKey u == some p) <;> simp_all
    simp [patternCount, List.filter_cons, h']

/-- The counter fold computes the specification count. -/
theorem countIn_foldl (p : String) : ∀ (urls : List String) (m : List (String × Nat)),
    countIn (urls.foldl countStep m) p = countIn m p + patternCount urls p
  | [], m => by simp [patternCount]
  | u :: t, m => by
    rw [List.foldl_cons, countIn_foldl p t, patternCount_cons]
    unfold countStep
    cases hk : patternKey u with
    | none => simp [hk]
    | some k =>
      by_cases hkp : k = p
      · subst hkp
        simp [countIn_bumpKey_self, Nat.add_comm, Nat.add_assoc, Nat.add_left_comm]
      · have hb : (some k == some p) = false := by
          simp [hkp]
        rw [countIn_bumpKey_other m k p (Ne.symm hkp), hb]
        simp

/-- The built counter agrees everywhere with the specification count. -/
theorem countIn_buildCounts (urls : List String) (p : String) :
    countIn (buildCounts urls) p = patternCount urls p := by
  have := countIn_foldl p urls []
  simpa [buildCounts, countIn] using this

/-- The built counter has distinct keys. -/
theorem keysNodup_buildCounts (urls : List String) : keysNodup (buildCounts urls) := by
  refine foldl_preserve countStep ?_ urls [] (by simp [keysNodup])
  intro m u h
  unfold countStep
  cases hk : patternKey u with
  | none => exact h
  | some k => exact keysNodup_bumpKey m k h

/-- The `max_by_key` fold never forgets a running maximum. -/
theorem foldl_maxStep_eq_none : ∀ (l : List (String × Nat)) (acc : Option (String × Nat)),
    l.foldl maxStep acc = none → acc = none ∧ l = []
  | [], acc, h => ⟨h, rfl⟩
  | x :: t, acc, h => by
    have hrec := foldl_maxStep_eq_none t (maxStep acc x) h
    exfalso
    cases acc with
    | none => simp [maxStep] at hrec
    | some kv0 =>
      rcases hrec with ⟨h1, -⟩
      by_cases hc : kv0.2 ≤ x.2 <;> simp [maxStep, hc] at h1

/-- The `max_by_key` fold returns a member (or the accumulator) whose count
dominates every scanned element and the accumulator. -/
theorem foldl_maxStep_spec : ∀ (l : List (String × Nat)) (acc : Option (String × Nat))
    (kv : String × Nat), l.foldl maxStep acc = some kv →
    (kv ∈ l ∨ acc = some kv) ∧ (∀ kv', kv' ∈ l → kv'.2 ≤ kv.2) ∧
    (∀ kv0, acc = some kv0 → kv0.2 ≤ kv.2)
  | [], acc, kv, h => by
    refine ⟨Or.inr h, by simp, ?_⟩
    intro kv0 h0
    rw [h0] at h
    cases h
    exact Nat.le_refl _
  | x :: t, acc, kv, h => by
    obtain ⟨hmem, hall, hacc⟩ := foldl_maxStep_spec t (maxStep acc x) kv h
    have hx : x.2 ≤ kv.2 := by
      cases acc with
      | none => exact hacc x rfl
      | some kv0 =>
        by_cases hc : kv0.2 ≤ x.2
        · exact hacc x (by simp [maxStep, hc])
        · have := hacc kv0 (by simp [maxStep, hc])
          omega
    refine ⟨?_, ?_, ?_⟩
    · rcases hmem with hm | hm
      · exact Or.inl (List.mem_cons_of_mem _ hm)
      · cases acc with
        | none =>
          simp only [maxStep] at hm
          cases hm
          exact Or.inl (List.mem_cons_self _ _)
        | some kv0 =>
          by_cases hc : kv0.2 ≤ x.2
          · simp only [maxStep, hc, if_true] at hm
            cases hm
            exact Or.inl (List.mem_cons_self _ _)
          · simp only [maxStep, hc, if_false] at hm
            exact Or.inr hm
    · intro kv' hkv'
      rcases List.mem_cons.mp hkv' with rfl | hm
      · exact hx
      · exact hall kv' hm
    · intro kv0 h0
      subst h0
      by_cases hc : kv0.2 ≤ x.2
      · omega
      · exact hacc kv0 (by simp [maxStep, hc])

/-- C4: `detect_massive_links_pattern(urls, threshold)` returns none when
`urls` has fewer than `threshold` elements; otherwise it keys a counter by
`prefix + "*" + suffix` around each URL's first digit run and returns a
pattern of maximal count among those with count at least the threshold, or
none when no counted pattern reaches it; on the five URLs
`domain.com/a/pattern/{1..5}` plus one unrelated URL at threshold 5 it
returns `domain.com/a/pattern/*`. -/
theorem detect_trap_pattern_spec (urls : List String) (threshold : Nat) :
    (urls.length < threshold → detect_massive_links_pattern urls threshold = none) ∧
    (∀ p, detect_massive_links_pattern urls threshold = some p →
       threshold ≤ patternCount urls p ∧
       ∀ q, patternCount urls q ≤ patternCount urls p) ∧
    (detect_massive_links_pattern urls threshold = none → threshold ≤ urls.length →
       ∀ p, 0 < patternCount urls p → patternCount urls p < threshold) ∧
    detect_massive_links_pattern
      ["domain.com/a/pattern/1", "domain.com/a/pattern/2", "domain.com/a/pattern/3",
       "domain.com/a/pattern/4", "domain.com/a/pattern/5", "domain.com/other/url"] 5
      = some "domain.com/a/pattern/*" := by
  refine ⟨?_, ?_, ?_, by decide⟩
  · intro h
    simp [detect_massive_links_pattern, h]
  · intro p hp
    unfold detect_massive_links_pattern at hp
    split at hp
    · cases hp
    · cases hmax : maxByCount ((buildCounts urls).filter fun kv => decide (threshold ≤ kv.2)) with
      | none => rw [hmax] at hp; cases hp
      | some kv =>
        rw [hmax] at hp
        cases hp
        obtain ⟨hmem, hall, -⟩ := foldl_maxStep_spec _ none kv hmax
        have hkvmem : kv ∈ (buildCounts urls).filter fun kv => decide (threshold ≤ kv.2) := by
          rcases hmem with h | h
          · exact h
          · cases h
        have hkv : kv ∈ buildCounts urls ∧ threshold ≤ kv.2 := by
          have := List.mem_filter.mp hkvmem
          simpa using this
        have hcount : patternCount urls kv.1 = kv.2 := by
          rw [← countIn_buildCounts]
          exact countIn_eq_of_mem _ kv.1 kv.2 (keysNodup_buildCounts urls)
            (by simpa using hkv.1)
        constructor
        · rw [hcount]; exact hkv.2
        · intro q
          by_cases hq : 0 < patternCount urls q
          · have hqmem : (q, patternCount urls q) ∈ buildCounts urls := by
              have := mem_of_countIn_pos (buildCounts urls) q
                (by rw [countIn_buildCounts]; exact hq)
              rwa [countIn_buildCounts] at this
            by_cases hth : threshold ≤ patternCount urls q
            · have : (q, patternCount urls q) ∈
                  (buildCounts urls).filter fun kv => decide (threshold ≤ kv.2) :=
                List.mem_filter.mpr ⟨hqmem, by simpa using hth⟩
              have := hall _ this
              simpa [hcount] using this
            · rw [hcount]
              omega
          · rw [hcount]
            omega
  · intro hnone hlen p hpos
    unfold detect_massive_links_pattern at hnone
    split at hnone
    · omega
    · cases hmax : maxByCount ((buildCounts urls).filter fun kv => decide (threshold ≤ kv.2)) with
      | some kv => rw [hmax] at hnone; cases hnone
      | none =>
        have hfil := (foldl_maxStep_eq_none _ none hmax).2
        by_contra hge
        have hth : threshold ≤ patternCount urls p := by omega
        have hpmem : (p, patternCount urls p) ∈ buildCounts urls := by
          have := mem_of_countIn_pos (buildCounts urls) p
            (by rw [countIn_buildCounts]; exact hpos)
          rwa [countIn_buildCounts] at this
        have : (p, patternCount urls p) ∈
            (buildCounts urls).filter fun kv => decide (threshold ≤ kv.2) :=
          List.mem_filter.mpr ⟨hpmem, by simpa using hth⟩
        rw [hfil] at this
        cases this

/-- C4 witness: the length gate at a concrete short input. -/
theorem detect_trap_pattern_spec_witness :
    detect_massive_links_pattern ["domain.com/x"] 5 = none :=
  (detect_trap_pattern_spec ["domain.com/x"] 5).1 (by decide)

/-- `process_url`'s link loop body preserves the crawl invariant: it only
appends link entries of priority 50 or 10 to the queue. -/
theorem crawlInv_processHref (env : Env) (bd cur : String) (d : Nat)
    (pp : List String) (s : CrawlState) (href : String) (h : CrawlInv s) :
    CrawlInv (processHref env bd cur d pp s href) := by
  unfold processHref
  split
  · exact h
  · split
    · exact h
    · split
      · exact h
      · exact h
      · split
        · exact h
        · split
          · exact h
          · obtain ⟨h1, h2, h3, h4, h5, h6⟩ := h
            refine ⟨h1, h2, h3, h4, h5, ?_⟩
            intro e he
            rcases List.mem_append.mp he with he | he
            · exact h6 e he
            · rcases List.mem_singleton.mp he with rfl
              right
              unfold linkEntry
              dsimp only
              split
              · left; rfl
              · right; rfl

/-- Appending a fresh element keeps a list duplicate-free. -/
theorem nodup_append_singleton {l : List String} {a : String}
    (h : l.Nodup) (ha : a ∉ l) : (l ++ [a]).Nodup := by
  simp [List.nodup_append, h, ha]

/-- The atomic visited-insert / found-append / fetch step preserves the
crawl invariant. -/
theorem crawlInv_markFetch (s : CrawlState) (url : String)
    (h : CrawlInv s) (hnot : url ∉ s.visited) :
    CrawlInv { s with visited := s.visited ++ [url], found := s.found ++ [url],
                      fetchLog := s.fetchLog ++ [url] } := by
  obtain ⟨h1, h2, h3, h4, h5, h6⟩ := h
  refine ⟨by dsimp only; rw [h1], nodup_append_singleton h2 hnot, ?_, ?_, ?_, h6⟩
  · intro u hu
    rcases List.mem_append.mp hu with hu | hu
    · exact List.mem_append_left _ (h3 u hu)
    · exact List.mem_append_right _ hu
  · exact nodup_append_singleton h4 (fun hm => hnot (h3 url hm))
  · intro u hu
    exact List.mem_append_left _ (h5 u hu)

/-- Recording an unreachable URL that is already in the found list
preserves the crawl invariant. -/
theorem crawlInv_addUnreachable (s : CrawlState) (u : String) (h : CrawlInv s)
    (hu : u ∈ s.found) : CrawlInv { s with unreachable := s.unreachable ++ [u] } := by
  obtain ⟨h1, h2, h3, h4, h5, h6⟩ := h
  refine ⟨h1, h2, h3, h4, ?_, h6⟩
  intro x hx
  rcases List.mem_append.mp hx with hx | hx
  · exact h5 x hx
  · rcases List.mem_singleton.mp hx with rfl
    exact hu

/-- The redirect map is irrelevant to the crawl invariant. -/
theorem crawlInv_setRedirects (s : CrawlState) (r : List (String × String))
    (h : CrawlInv s) : CrawlInv { s with redirects := r } :=
  h

/-- `Spider::process_url` preserves the crawl invariant. -/
theorem crawlInv_processUrl (env : Env) (bd : String) (pp : List String)
    (url : String) (d : Nat) (s : CrawlState) (h : CrawlInv s) :
    CrawlInv (processUrl env bd pp url d s) := by
  unfold processUrl
  split
  · exact h
  · rename_i hvis
    have hnot : url ∉ s.visited := by simpa using hvis
    have h1 : CrawlInv { s with visited := s.visited ++ [url],
                                found := s.found ++ [url],
                                fetchLog := s.fetchLog ++ [url] } :=
      crawlInv_markFetch s url h hnot
    dsimp only
    split
    · exact crawlInv_addUnreachable _ url h1 (List.mem_append_right _ (by simp))
    · rename_i resp heq
      split
      · split
        · exact crawlInv_setRedirects _ _ h1
        · exact h1
      · split
        · exact foldl_preserve _
            (fun b a hb => crawlInv_processHref env bd resp.finalUrl d pp b a hb)
            resp.hrefs _ (crawlInv_setRedirects _ _ h1)
        · exact foldl_preserve _
            (fun b a hb => crawlInv_processHref env bd resp.finalUrl d pp b a hb)
            resp.hrefs _ h1

/-- Batch-entry processing preserves the crawl invariant. -/
theorem crawlInv_processEntry (env : Env) (cfg : SpiderConfig) (bd : String)
    (s : CrawlState) (e : UrlEntry) (h : CrawlInv s) :
    CrawlInv (processEntry env cfg bd s e) := by
  unfold processEntry
  split
  · exact h
  · exact crawlInv_processUrl env bd cfg.priority_paths e.url e.depth s h

/-- One crawl-loop iteration preserves the crawl invariant. -/
theorem crawlInv_crawlStep (env : Env) (cfg : SpiderConfig) (bd : String)
    (s : CrawlState) (h : CrawlInv s) : CrawlInv (crawlStep env cfg bd s) := by
  unfold crawlStep
  dsimp only
  have hq : CrawlInv { s with queue := (selectBatch s.queue cfg.max_concurrent).2 } := by
    obtain ⟨h1, h2, h3, h4, h5, h6⟩ := h
    refine ⟨h1, h2, h3, h4, h5, ?_⟩
    intro e he
    apply h6
    unfold selectBatch at he
    dsimp only at he
    have hms : e ∈ s.queue.insertionSort entryRel := List.mem_of_mem_drop he
    exact (List.mem_insertionSort entryRel).mp hms
  split
  · exact foldl_preserve _ (fun b a hb => crawlInv_processEntry env cfg bd b a hb)
      _ _ hq
  · exact foldl_preserve _ (fun b a hb => crawlInv_processEntry env cfg bd b a hb)
      _ _ hq

/-- The bounded crawl loop preserves the crawl invariant. -/
theorem crawlInv_crawlLoop (env : Env) (cfg : SpiderConfig) (bd : String) :
    ∀ (fuel : Nat) (s : CrawlState) (loops processed : Nat),
    CrawlInv s → CrawlInv (crawlLoop env cfg bd fuel s loops processed).1
  | 0, _, _, _, h => h
  | fuel + 1, s, l, p, h => by
    unfold crawlLoop
    split
    · exact h
    · exact crawlInv_crawlLoop env cfg bd fuel _ _ _ (crawlInv_crawlStep env cfg bd s h)

/-- The initial crawl state satisfies the crawl invariant. -/
theorem crawlInv_initState (nu : String) : CrawlInv (initState nu) := by
  refine ⟨rfl, List.nodup_nil, ?_, List.nodup_nil, ?_, ?_⟩
  · intro u hu; cases hu
  · intro u hu; cases hu
  · intro e he
    rcases List.mem_singleton.mp he with rfl
    left; rfl

/-- The final state of every crawl satisfies the crawl invariant. -/
theorem crawlInv_runCrawl (env : Env) (cfg : SpiderConfig) (bd nu : String) :
    CrawlInv (runCrawl env cfg bd nu).1 :=
  crawlInv_crawlLoop env cfg bd cfg.max_loops (initState nu) 0 0 (crawlInv_initState nu)

/-- Removing consecutive duplicates preserves membership. -/
theorem mem_dedupConsec (u : String) : ∀ (l : List String), u ∈ dedupConsec l ↔ u ∈ l
  | [] => by simp [dedupConsec]
  | [a] => by simp [dedupConsec]
  | a :: b :: t => by
    by_cases hab : a = b
    · subst hab
      rw [show dedupConsec (a :: a :: t) = dedupConsec (a :: t) by
        simp [dedupConsec]]
      rw [mem_dedupConsec u (a :: t)]
      simp [List.mem_cons]
    · have hb : (a == b) = false := beq_eq_false_iff_ne.mpr hab
      simp [dedupConsec, hb, mem_dedupConsec u (b :: t)]

/-- A duplicate-free list is unchanged by consecutive deduplication. -/
theorem dedupConsec_eq_self : ∀ (l : List String), l.Nodup → dedupConsec l = l
  | [], _ => rfl
  | [_], _ => rfl
  | a :: b :: t, h => by
    have hab : a ≠ b := by
      intro he
      subst he
      exact (List.nodup_cons.mp h).1 (List.mem_cons_self _ _)
    have hb : (a == b) = false := beq_eq_false_iff_ne.mpr hab
    simp [dedupConsec, hb, dedupConsec_eq_self (b :: t) (List.nodup_cons.mp h).2]

/-- Destructuring a successful crawl into its seed validation, loop run,
and persistence. -/
theorem crawl_ok_elim (env : Env) (cfg : SpiderConfig) (start_url : String)
    (r : CrawlResult) (h : crawl env cfg start_url = .ok r) :
    ∃ bd nu, extract_base_domain env start_url = .ok bd ∧
      normalize_url env start_url = .ok nu ∧ env.saveOk = true ∧
      r = mkResult nu bd (runCrawl env cfg bd nu).1 (runCrawl env cfg bd nu).2.1
            (runCrawl env cfg bd nu).2.2 := by
  unfold crawl at h
  cases hE : extract_base_domain env start_url with
  | error e => rw [hE] at h; cases h
  | ok bd =>
    rw [hE] at h
    cases hN : normalize_url env start_url with
    | error e => rw [hN] at h; cases h
    | ok nu =>
      rw [hN] at h
      dsimp only at h
      cases hS : env.saveOk with
      | false => rw [hS] at h; simp at h
      | true =>
        rw [hS] at h
        simp only [if_true] at h
        injection h with h'
        exact ⟨bd, nu, rfl, rfl, rfl, h'.symm⟩

/-- The loop counter rises by at most the remaining fuel. -/
theorem crawlLoop_loops_le (env : Env) (cfg : SpiderConfig) (bd : String) :
    ∀ (fuel : Nat) (s : CrawlState) (loops processed : Nat),
      (crawlLoop env cfg bd fuel s loops processed).2.1 ≤ loops + fuel
  | 0, s, l, p => by simp [crawlLoop]
  | fuel + 1, s, l, p => by
    unfold crawlLoop
    split
    · simp
    · have := crawlLoop_loops_le env cfg bd fuel (crawlStep env cfg bd s) (l + 1)
        (p + min cfg.max_concurrent s.queue.length)
      omega

/-- Under the crawl invariant, the deduplicated sorted found list has
exactly as many entries as the visited ledger. -/
theorem length_urls_eq (s : CrawlState) (h : CrawlInv s) :
    (dedupConsec (sortStrings s.found)).length = s.visited.length := by
  obtain ⟨h1, h2, -, -, -, -⟩ := h
  have hfnd : s.found.Nodup := h1 ▸ h2
  have hperm := List.perm_insertionSort (fun a b => strLe a b = true) s.found
  have hnd : (sortStrings s.found).Nodup := hperm.nodup_iff.mpr hfnd
  rw [dedupConsec_eq_self _ hnd]
  unfold sortStrings
  rw [List.length_insertionSort]
  rw [h1]

/-- C1 counterexample: under `envA` the seed `https://a.com/` fails its
fetch; it then appears in BOTH the final `urls` list and
`unreachable_urls`, so the two lists are not disjoint as the claim
states. -/
theorem urls_unreachable_disjoint_cex :
    "https://a.com/" ∈ (crawlA.toOption.getD emptyResult).urls ∧
    "https://a.com/" ∈ (crawlA.toOption.getD emptyResult).unreachable_urls := by
  constructor <;> decide

/-- C1 (amended): every URL recorded as unreachable also appears in the
final `urls` list — `process_url` appends the URL to the found list
before attempting the fetch, so a fetch failure leaves it in both
accumulators. -/
theorem unreachable_also_in_urls (env : Env) (cfg : SpiderConfig)
    (start_url : String) (r : CrawlResult) (h : crawl env cfg start_url = .ok r) :
    ∀ u, u ∈ r.unreachable_urls → u ∈ r.urls := by
  obtain ⟨bd, nu, hE, hN, hS, rfl⟩ := crawl_ok_elim env cfg start_url r h
  intro u hu
  obtain ⟨-, -, -, -, h5, -⟩ := crawlInv_runCrawl env cfg bd nu
  have hf : u ∈ (runCrawl env cfg bd nu).1.found := h5 u hu
  show u ∈ dedupConsec (sortStrings (runCrawl env cfg bd nu).1.found)
  rw [mem_dedupConsec]
  unfold sortStrings
  rw [List.mem_insertionSort]
  exact hf

/-- C1 witness: the amended statement evaluated on the `envA` crawl. -/
theorem unreachable_also_in_urls_witness :
    "https://a.com/" ∈ (crawlA.toOption.getD emptyResult).urls :=
  unreachable_also_in_urls envA cfgA "https://a.com/"
    (crawlA.toOption.getD emptyResult) rfl "https://a.com/" (by decide)

/-- C2 counterexample: with a seed URL that fails to parse, `crawl`
returns an error even though persistence would succeed — persistence
failure is not the only failure condition surfacing to the caller. -/
theorem crawl_error_without_persistence_cex :
    crawl envB cfgA "http;bad" = .error .urlParse ∧ envB.saveOk = true :=
  ⟨rfl, rfl⟩

/-- C2 (amended): once the seed URL passes base-domain extraction and
normalization, persistence failure is the one and only failure condition
of `crawl`: with persistence succeeding the crawl always returns a report
(every per-URL fetch / content-type / resolution / domain-check failure is
contained), and with persistence failing it returns exactly the
persistence error. -/
theorem crawl_persistence_only_failure (env : Env) (cfg : SpiderConfig)
    (start_url bd nu : String)
    (hE : extract_base_domain env start_url = .ok bd)
    (hN : normalize_url env start_url = .ok nu) :
    (env.saveOk = true → crawl env cfg start_url =
       .ok (mkResult nu bd (runCrawl env cfg bd nu).1 (runCrawl env cfg bd nu).2.1
             (runCrawl env cfg bd nu).2.2)) ∧
    (env.saveOk = false → crawl env cfg start_url = .error .ioErr) := by
  unfold crawl
  rw [hE, hN]
  constructor <;> intro h <;> simp [h]

/-- C2 witness: the `envA` crawl (all fetches fail, persistence succeeds)
still returns a report. -/
theorem crawl_persistence_only_failure_witness :
    crawl envA cfgA "https://a.com/" =
      .ok (mkResult "https://a.com/" "a.com"
            (runCrawl envA cfgA "a.com" "https://a.com/").1
            (runCrawl envA cfgA "a.com" "https://a.com/").2.1
            (runCrawl envA cfgA "a.com" "https://a.com/").2.2) :=
  (crawl_persistence_only_failure envA cfgA "https://a.com/" "a.com" "https://a.com/"
    rfl rfl).1 rfl

/-- C3: the fetch log of every crawl is duplicate-free — the atomic
visited check-and-set in `process_url` ensures each URL is fetched at most
once per crawl, no matter how often it is dispatched. -/
theorem fetch_at_most_once (env : Env) (cfg : SpiderConfig) (bd nu : String) :
    (runCrawl env cfg bd nu).1.fetchLog.Nodup :=
  (crawlInv_runCrawl env cfg bd nu).2.2.2.1

/-- C3 witness: the fetch log of the concrete `envA` crawl. -/
theorem fetch_at_most_once_witness :
    (runCrawl envA cfgA "a.com" "https://a.com/").1.fetchLog.Nodup :=
  fetch_at_most_once envA cfgA "a.com" "https://a.com/"

/-- C5: on a non-empty frontier, batch selection drains the whole queue,
stable-sorts it by priority descending, takes the first
`min(max_concurrent, len)` entries as the batch, and pushes the rest back:
batch and remainder are exactly the split of the sorted queue, together a
permutation of the drained queue (nothing lost or duplicated), sorted by
descending priority, with the batch of length `min(max_concurrent, len)`. -/
theorem batch_selection_spec (q : List UrlEntry) (n : Nat) (hq : q ≠ []) :
    (selectBatch q n).1 ++ (selectBatch q n).2 = q.insertionSort entryRel ∧
    ((selectBatch q n).1 ++ (selectBatch q n).2).Perm q ∧
    List.Sorted entryRel ((selectBatch q n).1 ++ (selectBatch q n).2) ∧
    (selectBatch q n).1.length = min n q.length := by
  have htd : (selectBatch q n).1 ++ (selectBatch q n).2 = q.insertionSort entryRel := by
    unfold selectBatch
    dsimp only
    exact List.take_append_drop _ _
  refine ⟨htd, ?_, ?_, ?_⟩
  · rw [htd]
    exact List.perm_insertionSort entryRel q
  · rw [htd]
    haveI : IsTotal UrlEntry entryRel := ⟨fun a b => Nat.le_total b.priority a.priority⟩
    haveI : IsTrans UrlEntry entryRel := ⟨fun a b c hab hbc => Nat.le_trans hbc hab⟩
    exact List.sorted_insertionSort entryRel q
  · unfold selectBatch
    dsimp only
    rw [List.length_take, List.length_insertionSort]
    omega

/-- C5 witness: selection on a concrete two-entry queue with
`max_concurrent = 1`. -/
theorem batch_selection_spec_witness :
    ((selectBatch qW 1).1 ++ (selectBatch qW 1).2).Perm qW :=
  (batch_selection_spec qW 1 (by decide)).2.1

/-- C6: the pre-dispatch filters are evaluated in the order
max-depth, massive-link pattern, skip pattern, subdomain pattern, each
short-circuiting to the first matching skip reason, and a classifier error
in the subdomain check leaves the entry dispatched (fail open) rather than
failing; a `some` reason records a skip and `none` dispatches the entry to
`process_url`. -/
theorem pre_dispatch_filter_spec (env : Env) (cfg : SpiderConfig) (bd : String)
    (s : CrawlState) (e : UrlEntry) :
    (cfg.max_depth ≤ e.depth →
       preDispatchReason env cfg s.patterns e = some "max_depth_exceeded") ∧
    (e.depth < cfg.max_depth → matchesMassivePattern s.patterns e.url = true →
       preDispatchReason env cfg s.patterns e = some "massive_link_pattern") ∧
    (e.depth < cfg.max_depth → matchesMassivePattern s.patterns e.url = false →
       should_skip_url e.url cfg.skip_patterns = true →
       preDispatchReason env cfg s.patterns e = some "skip_pattern") ∧
    (e.depth < cfg.max_depth → matchesMassivePattern s.patterns e.url = false →
       should_skip_url e.url cfg.skip_patterns = false →
       should_skip_subdomain env e.url cfg.skip_subdomain_patterns = .ok true →
       preDispatchReason env cfg s.patterns e = some "subdomain_pattern") ∧
    (∀ err, e.depth < cfg.max_depth → matchesMassivePattern s.patterns e.url = false →
       should_skip_url e.url cfg.skip_patterns = false →
       should_skip_subdomain env e.url cfg.skip_subdomain_patterns = .error err →
       preDispatchReason env cfg s.patterns e = none) ∧
    (∀ reason, preDispatchReason env cfg s.patterns e = some reason →
       processEntry env cfg bd s e = { s with skipped := addSkip s.skipped reason e.url }) ∧
    (preDispatchReason env cfg s.patterns e = none →
       processEntry env cfg bd s e =
         processUrl env bd cfg.priority_paths e.url e.depth s) := by
  refine ⟨?_, ?_, ?_, ?_, ?_, ?_, ?_⟩
  · intro h
    simp [preDispatchReason, h]
  · intro h1 h2
    simp [preDispatchReason, Nat.not_le.mpr h1, h2]
  · intro h1 h2 h3
    simp [preDispatchReason, Nat.not_le.mpr h1, h2, h3]
  · intro h1 h2 h3 h4
    simp [preDispatchReason, Nat.not_le.mpr h1, h2, h3, h4]
  · intro err h1 h2 h3 h4
    simp [preDispatchReason, Nat.not_le.mpr h1, h2, h3, h4]
  · intro reason hr
    simp [processEntry, hr]
  · intro hr
    simp [processEntry, hr]

/-- C6 witness: a depth-exceeded entry under the concrete configuration. -/
theorem pre_dispatch_filter_spec_witness :
    preDispatchReason envA cfgA (initState "https://a.com/").patterns
      { url := "https://a.com/x", depth := 5, priority := 10 } =
      some "max_depth_exceeded" :=
  (pre_dispatch_filter_spec envA cfgA "a.com" (initState "https://a.com/")
    { url := "https://a.com/x", depth := 5, priority := 10 }).1 (by decide)

/-- C7: the seed is enqueued at depth 0 with priority 100; every
link-derived entry has its parent's depth plus one and priority 50 on a
priority-path match, 10 otherwise — strictly below the seed's 100; and
every entry in the frontier at any crawl's end carries one of those
priorities. -/
theorem seed_and_link_priorities (env : Env) (cfg : SpiderConfig)
    (bd nu url : String) (d : Nat) (pp : List String) :
    (initState nu).queue = [{ url := nu, depth := 0, priority := 100 }] ∧
    (linkEntry url d pp).depth = d + 1 ∧
    (linkEntry url d pp).priority = (if is_priority_url url pp then 50 else 10) ∧
    (linkEntry url d pp).priority < 100 ∧
    (∀ e, e ∈ (runCrawl env cfg bd nu).1.queue →
       e.priority = 100 ∨ e.priority = 50 ∨ e.priority = 10) := by
  refine ⟨rfl, rfl, rfl, ?_, ?_⟩
  · unfold linkEntry
    dsimp only
    split <;> omega
  · exact (crawlInv_runCrawl env cfg bd nu).2.2.2.2.2

/-- C7 witness: a concrete link entry stays strictly below the seed
priority. -/
theorem seed_and_link_priorities_witness :
    (linkEntry "https://a.com/x" 0 []).priority < 100 :=
  (seed_and_link_priorities envA cfgA "a.com" "https://a.com/"
    "https://a.com/x" 0 []).2.2.2.1

/-- C8: the loop counter of every crawl is at most `max_loops`; an
iteration with an empty frontier increments the counter and stops with the
state unchanged; an iteration with a non-empty frontier runs exactly one
`crawlStep` and recurses; and exhausted fuel stops the loop — no other
mechanism ends it. -/
theorem crawl_loop_bound (env : Env) (cfg : SpiderConfig) (bd nu : String) :
    (runCrawl env cfg bd nu).2.1 ≤ cfg.max_loops ∧
    (∀ fuel s loops processed, s.queue.isEmpty = true →
       crawlLoop env cfg bd (fuel + 1) s loops processed = (s, loops + 1, processed)) ∧
    (∀ fuel s loops processed, s.queue.isEmpty = false →
       crawlLoop env cfg bd (fuel + 1) s loops processed =
         crawlLoop env cfg bd fuel (crawlStep env cfg bd s) (loops + 1)
           (processed + min cfg.max_concurrent s.queue.length)) ∧
    (∀ s loops processed, crawlLoop env cfg bd 0 s loops processed = (s, loops, processed)) := by
  refine ⟨?_, ?_, ?_, ?_⟩
  · have := crawlLoop_loops_le env cfg bd cfg.max_loops (initState nu) 0 0
    simpa [runCrawl] using this
  · intro fuel s loops processed h
    simp [crawlLoop, h]
  · intro fuel s loops processed h
    simp [crawlLoop, h]
  · intro s loops processed
    rfl

/-- C8 witness: an empty-queue iteration under the concrete configuration
stops at once, still counting the iteration. -/
theorem crawl_loop_bound_witness :
    crawlLoop envA cfgA "a.com" 1 sEmptyQ 3 4 = (sEmptyQ, 4, 4) :=
  (crawl_loop_bound envA cfgA "a.com" "https://a.com/").2.1 0 sEmptyQ 3 4 rfl

/-- C9: at the end of every crawl the found list is exactly the visited
ledger (each ledger insertion pairs with exactly one found append), so the
final report's `visited_urls` and `found_urls` stats are equal. -/
theorem found_equals_visited (env : Env) (cfg : SpiderConfig)
    (bd nu start_url : String) :
    (runCrawl env cfg bd nu).1.found = (runCrawl env cfg bd nu).1.visited ∧
    (∀ r, crawl env cfg start_url = .ok r →
       List.lookup "visited_urls" r.stats = List.lookup "found_urls" r.stats) := by
  refine ⟨(crawlInv_runCrawl env cfg bd nu).1, ?_⟩
  intro r h
  obtain ⟨bd', nu', hE, hN, hS, rfl⟩ := crawl_ok_elim env cfg start_url r h
  have hlen := length_urls_eq _ (crawlInv_runCrawl env cfg bd' nu')
  simp [mkResult, List.lookup, hlen]

/-- C9 witness: the two stats agree on the concrete `envA` crawl. -/
theorem found_equals_visited_witness :
    List.lookup "visited_urls" (crawlA.toOption.getD emptyResult).stats =
      List.lookup "found_urls" (crawlA.toOption.getD emptyResult).stats :=
  (found_equals_visited envA cfgA "a.com" "https://a.com/" "https://a.com/").2
    (crawlA.toOption.getD emptyResult) rfl

/-- C10: `fetch` never panics when the user-agent list is non-empty and
the minimum delay is at most the maximum; under any configuration
violating either precondition, every fetch of a URL that parses (and so
reaches the random-range sampling) panics instead of returning a
`SpiderError`. -/
theorem fetch_panic_conditions (env : Env) (cfg : SpiderConfig) (url : String) :
    (cfg.user_agents ≠ [] → cfg.min_request_delay_ms ≤ cfg.max_request_delay_ms →
       fetchOutcome env cfg url ≠ .panicked) ∧
    ((env.parseUrl url).isSome = true →
       (cfg.user_agents = [] ∨ cfg.max_request_delay_ms < cfg.min_request_delay_ms) →
       fetchOutcome env cfg url = .panicked) := by
  constructor
  · intro hne hle
    unfold fetchOutcome
    cases env.parseUrl url with
    | none => simp
    | some p =>
      have h1 : ¬ (cfg.max_request_delay_ms < cfg.min_request_delay_ms) :=
        Nat.not_lt.mpr hle
      have h2 : cfg.user_agents.isEmpty = false := by
        cases hua : cfg.user_agents with
        | nil => exact absurd hua hne
        | cons a t => rfl
      simp only [h1, if_false, h2, Bool.false_eq_true]
      cases env.fetchRes url <;> simp
  · intro hps hbad
    cases hp : env.parseUrl url with
    | none => rw [hp] at hps; cases hps
    | some p =>
      unfold fetchOutcome
      rw [hp]
      rcases hbad with hua | hlt
      · by_cases hlt' : cfg.max_request_delay_ms < cfg.min_request_delay_ms
        · simp [hlt']
        · simp [hlt', hua]
      · simp [hlt]

/-- C10 witness: the good configuration never panics; emptying the
user-agent list makes the same fetch panic. -/
theorem fetch_panic_conditions_witness :
    fetchOutcome envA cfgA "https://a.com/" ≠ .panicked ∧
    fetchOutcome envA cfgBad "https://a.com/" = .panicked :=
  ⟨(fetch_panic_conditions envA cfgA "https://a.com/").1 (by decide) (by decide),
   (fetch_panic_conditions envA cfgBad "https://a.com/").2 (by decide) (Or.inl rfl)⟩
